import Mathlib

/-!
Verification of the A-share data utilities of this repository against their
natural-language specification.

The development shallowly embeds three modules:

* `tradingagents/dataflows/astock_data/stock_code.py`   (namespace `AStockCode`)
* `tradingagents/dataflows/astock_data/market_calendar.py` (namespace `AStockCalendar`)
* `tradingagents/dataflows/astock_data/data_validator.py`  (namespace `AStockDataValidator`)

Modelling conventions:

* Python strings are Lean `String`s; characters are compared through their
  code points, and `str.strip` / `str.upper` are embedded for the ASCII
  behaviours (`re`'s `\d` is embedded as the ASCII digits).
* Dates are `Nat` day ordinals (`pd.to_datetime` of a date string yields a
  midnight timestamp, so the date domain is totally ordered and two
  consecutive calendar days differ by 1).
* Prices and volumes are exact rationals (`Rat`); `NaN` rows are outside the
  model, and the price-limit claims assume a positive previous close so the
  embedded exact division agrees with the float division of the source.
* Fallible code returns `Except PyError`; `PyError.attributeError` stands for
  Python's `AttributeError` (attribute access on `None`) and
  `PyError.keyError` for a `KeyError` (missing dictionary key).
-/

namespace AStockCode

/-- ASCII whitespace stripped by Python's `str.strip()`. -/
def isPyWhitespace (c : Char) : Bool :=
  c.toNat = 32 || c.toNat = 9 || c.toNat = 10 || c.toNat = 13 ||
  c.toNat = 11 || c.toNat = 12

/-- `str.strip()`: drop leading and trailing whitespace. -/
def pyStrip (l : List Char) : List Char :=
  ((l.dropWhile isPyWhitespace).reverse.dropWhile isPyWhitespace).reverse

/-- `str.upper()` on one ASCII character. -/
def pyToUpper (c : Char) : Char :=
  if 97 ≤ c.toNat ∧ c.toNat ≤ 122 then Char.ofNat (c.toNat - 32) else c

/-- `str.upper()` on a string (as a character list). -/
def pyUpper (l : List Char) : List Char := l.map pyToUpper

/-- A regex `\d` character (ASCII digits). -/
def isDig (c : Char) : Bool := 48 ≤ c.toNat && c.toNat ≤ 57

/-- `s.startswith(pat)` on character lists (first argument the string). -/
def strStartsWith : List Char → List Char → Bool
  | _, [] => true
  | [], _ :: _ => false
  | c :: cs, p :: ps => c = p && strStartsWith cs ps

/-- The regex piece `(\d{6})`: exactly six digits at the head of the input,
returned together with the rest of the input. -/
def takeDigits6 (l : List Char) : Option (List Char × List Char) :=
  let d := l.take 6
  if d.length = 6 && d.all isDig then some (d, l.drop 6) else none

/-- The regex piece `(SH|SZ|BJ)` at the head of the input. -/
def matchMarket : List Char → Option (String × List Char)
  | 'S' :: 'H' :: r => some ("SH", r)
  | 'S' :: 'Z' :: r => some ("SZ", r)
  | 'B' :: 'J' :: r => some ("BJ", r)
  | _ => none

/-- `re.match(r'(\d{6})\.?(SH|SZ|BJ)', code)`: six digits, an optional dot
(greedy, with backtracking), then a market tag; anchored at the start only,
trailing input is ignored. -/
def matchCodeThenMarket (l : List Char) : Option (List Char × String) :=
  match takeDigits6 l with
  | none => none
  | some (d, rest) =>
    match rest with
    | '.' :: r2 =>
      (match matchMarket r2 with
       | some (m, _) => some (d, m)
       | none =>
         match matchMarket rest with
         | some (m, _) => some (d, m)
         | none => none)
    | _ =>
      match matchMarket rest with
      | some (m, _) => some (d, m)
      | none => none

/-- `re.match(r'(SH|SZ|BJ)(\d{6})', code)`: a market tag then six digits;
anchored at the start only. -/
def matchMarketThenCode (l : List Char) : Option (List Char × String) :=
  match matchMarket l with
  | none => none
  | some (m, rest) =>
    match takeDigits6 rest with
    | some (d, _) => some (d, m)
    | none => none

/-- `BOARD_DEFINITIONS`, in the source's insertion order (keys are 3-digit
code heads, values the market they imply). -/
def BOARD_DEFINITIONS : List (String × String) :=
  [("600", "SH"), ("601", "SH"), ("603", "SH"), ("605", "SH"),
   ("000", "SZ"), ("001", "SZ"), ("002", "SZ"), ("003", "SZ"),
   ("300", "SZ"), ("301", "SZ"), ("688", "SH"), ("689", "SH"),
   ("830", "BJ"), ("831", "BJ"), ("832", "BJ"), ("833", "BJ"),
   ("835", "BJ"), ("836", "BJ"), ("837", "BJ"), ("838", "BJ"),
   ("839", "BJ")]

/-- `AStockCode._infer_market`: market implied by the first three characters
of a six-character code, through the first matching entry of
`BOARD_DEFINITIONS`. -/
def inferMarket (code : String) : Option String :=
  if code.length ≠ 6 then none
  else
    let p := code.toList.take 3
    (BOARD_DEFINITIONS.find? (fun kv => strStartsWith p kv.1.toList)).map (·.2)

/-- The `f"{stock_code}.{market}"` result string. -/
def canonical (d : List Char) (m : String) : String := String.mk d ++ "." ++ m

/-- `AStockCode.standardize` on a (non-`None`) string input. -/
def standardize (code : String) : Option String :=
  if code = "" then none
  else
    let c := pyUpper (pyStrip code.toList)
    match matchCodeThenMarket c with
    | some (d, m) => some (canonical d m)
    | none =>
      match matchMarketThenCode c with
      | some (d, m) => some (canonical d m)
      | none =>
        match takeDigits6 c with
        | some (d, _) =>
          match inferMarket (String.mk d) with
          | some m => some (canonical d m)
          | none => none
        | none => none

/-- `AStockCode.standardize` with the `None` input included
(`if not code: return None` also catches `None`). -/
def standardizeOpt : Option String → Option String
  | none => none
  | some s => standardize s

/-- The record returned by `AStockCode.get_market_info` when the code
standardizes (the source returns `{}` otherwise, embedded as `none`);
the field `pfx` is the source's dictionary key `"prefix"`. -/
structure MarketInfo where
  code : String
  pure_code : String
  market : String
  board : String
  pfx : String
deriving DecidableEq, Repr

/-- `AStockCode.get_market_info`. -/
def getMarketInfo (code : String) : Option MarketInfo :=
  match standardize code with
  | none => none
  | some std =>
    let stock := String.mk (std.toList.takeWhile (fun c => c ≠ '.'))
    let market := String.mk ((std.toList.dropWhile (fun c => c ≠ '.')).drop 1)
    let p := String.mk (stock.toList.take 3)
    let board :=
      if p = "002" ∨ p = "003" then "中小板"
      else if p = "300" ∨ p = "301" then "创业板"
      else if p = "688" ∨ p = "689" then "科创板"
      else if market = "BJ" then "北交所"
      else "主板"
    some ⟨std, stock, market, board, p⟩

/-- One of the three exchange tags. -/
def marketStr (m : String) : Prop := m = "SH" ∨ m = "SZ" ∨ m = "BJ"

/-- Exactly six digits. -/
def digits6 (d : List Char) : Prop := d.length = 6 ∧ d.all isDig = true

/-- The three accepted shapes of the spec, as a declarative predicate on a
portion `p` of the cleaned input: six digits with a (possibly dotted)
explicit exchange suffix, an exchange tag followed by six digits, or a bare
six-digit code whose market the inference table determines. -/
def acceptedShape (p : List Char) : Prop :=
  (∃ d m, digits6 d ∧ marketStr m ∧
    (p = d ++ m.toList ∨ p = d ++ '.' :: m.toList)) ∨
  (∃ d m, digits6 d ∧ marketStr m ∧ p = m.toList ++ d) ∨
  (∃ d, digits6 d ∧ p = d ∧ (inferMarket (String.mk d)).isSome = true)

end AStockCode

/-- Python exceptions the embedded code can raise. -/
inductive PyError where
  | attributeError
  | keyError
deriving DecidableEq, Repr

instance {ε α : Type} [DecidableEq ε] [DecidableEq α] : DecidableEq (Except ε α) :=
  fun x y =>
    match x, y with
    | .error a, .error b =>
      if h : a = b then isTrue (by rw [h]) else isFalse (by simp [h])
    | .ok a, .ok b =>
      if h : a = b then isTrue (by rw [h]) else isFalse (by simp [h])
    | .error _, .ok _ => isFalse (by simp)
    | .ok _, .error _ => isFalse (by simp)

namespace AStockCalendar

/-- A date, as a day ordinal (see the module comment). -/
abbrev Date := Nat

/-- The parsed content of the persisted snapshot `trading_calendar.json`
(`pd.to_datetime` of a stored date string is the identity on the date
domain). -/
structure CacheData where
  trading_days : List Date
  holidays : List Date
deriving DecidableEq, Repr

/-- The calendar's two cached fields, `None` until populated. -/
structure CalendarState where
  trading_days : Option (List Date)
  holidays : Option (List Date)
deriving DecidableEq, Repr

/-- `AStockCalendar._load_calendar_cache`: when a parsable snapshot file
exists, both fields are set to its lists exactly as stored (no sorting, no
deduplication); when it is absent or unparsable the state is unchanged. -/
def loadCalendarCache (file : Option CacheData) (st : CalendarState) :
    CalendarState :=
  match file with
  | none => st
  | some d => { trading_days := some d.trading_days, holidays := some d.holidays }

/-- `AStockCalendar.get_trading_days` on a populated calendar (`td` the
value of `self._trading_days`; the unpopulated refresh path performs a
network fetch and is outside the claims). -/
def getTradingDays (td : List Date) (s e : Date) : List Date :=
  td.filter (fun d => s ≤ d && d ≤ e)

/-- `AStockCalendar.get_trading_days` wrapped in `Except`, recording that the
source raises no exception on any pair of (parsed) dates: every run is
`Except.ok`. -/
def getTradingDaysRun (td : List Date) (s e : Date) :
    Except PyError (List Date) :=
  Except.ok (getTradingDays td s e)

/-- `AStockCalendar.count_trading_days`. -/
def countTradingDays (td : List Date) (s e : Date) : Nat :=
  (getTradingDays td s e).length

/-- `AStockCalendar.is_trading_day` on a populated calendar (`date in
self._trading_days` after normalising to midnight, which the `Date` domain
already does). -/
def isTradingDay (td : List Date) (d : Date) : Bool := td.contains d

/-- A datetime of `get_trading_hours`: a date with a minute-of-day. -/
abbrev DateTime := Date × Nat

/-- `AStockCalendar.get_trading_hours` on a populated calendar: on a trading
day the pair `(opening datetime 09:30, closing datetime 15:00)`, otherwise
`None`.  570 = 9 * 60 + 30 and 900 = 15 * 60 minutes. -/
def getTradingHours (td : List Date) (d : Date) : Option (DateTime × DateTime) :=
  if isTradingDay td d then some ((d, 570), (d, 900)) else none

/-- Modelled from the spec: `tradingHours(date)` returns two sessions on a
trading day — a morning session 09:30–11:30 and an afternoon session
13:00–15:00 (as minute-of-day intervals: 570–690 and 780–900) — and an
absence value otherwise.  Stated for comparison with `getTradingHours`,
whose source returns a single (open, close) pair. -/
def specTradingHours (td : List Date) (d : Date) :
    Option ((Nat × Nat) × (Nat × Nat)) :=
  if isTradingDay td d then some ((570, 690), (780, 900)) else none

end AStockCalendar

namespace AStockDataValidator

open AStockCalendar

/-- One row of the OHLCV frame, at its index date.  The model assumes the
five required columns are present, numeric and free of `NaN` (the claims
never exercise the missing-column or `NaN` paths); `opn` is the column
`Open`. -/
structure Row where
  date : Date
  opn : Rat
  high : Rat
  low : Rat
  close : Rat
  volume : Rat
deriving DecidableEq, Repr

/-- `self.limit_up_down`, in the source's insertion order. -/
def limit_up_down : List (String × Rat) :=
  [("ST", 1/20), ("normal", 1/10), ("new", 11/25),
   ("kcb", 1/5), ("cyb", 1/5), ("bj", 3/10)]

/-- `self.limit_up_down[k]` (every key used by the source is present). -/
def limitFor (k : String) : Rat :=
  ((limit_up_down.find? (fun kv => kv.1 = k)).map (·.2)).getD 0

/-- `AStockDataValidator._get_limit_rate`. -/
def getLimitRate (market pfx : String) : Rat :=
  if AStockCode.strStartsWith pfx.toList "688".toList ||
     AStockCode.strStartsWith pfx.toList "689".toList then limitFor "kcb"
  else if AStockCode.strStartsWith pfx.toList "300".toList ||
          AStockCode.strStartsWith pfx.toList "301".toList then limitFor "cyb"
  else if market = "BJ" then limitFor "bj"
  else limitFor "normal"

/-- `stock_info.get('market', 'SZ')` and `stock_info.get('prefix', '000')`
from `AStockCode.get_market_info(symbol)` (an empty dictionary yields the
defaults). -/
def marketAndPfx (symbol : String) : String × String :=
  match AStockCode.getMarketInfo symbol with
  | none => ("SZ", "000")
  | some i => (i.market, i.pfx)

/-- The price limit `validate_price_limit` uses for a symbol. -/
def limitRateOf (symbol : String) : Rat :=
  getLimitRate (marketAndPfx symbol).1 (marketAndPfx symbol).2

/-- The `valid` / `errors` / `warnings` parts of the result of
`validate_stock_data` (the `summary` entry is derived data no claim
touches, so it is omitted from the model). -/
structure BasicValidation where
  valid : Bool
  errors : List String
  warnings : List String
deriving DecidableEq, Repr

/-- One row violating the High/Low/Open/Close ordering checks. -/
def invalidPriceRow (r : Row) : Bool :=
  r.high < r.low || r.high < r.opn || r.high < r.close ||
  r.low > r.opn || r.low > r.close

/-- The warning `validate_stock_data` emits for one price column when it
holds non-positive entries. -/
def priceColWarning (name : String) (get : Row → Rat) (df : List Row) :
    List String :=
  let n := (df.filter (fun r => get r ≤ 0)).length
  if 0 < n then [name ++ "列存在无效价格数据: " ++ toString n ++ "条"] else []

/-- `AStockDataValidator.validate_stock_data` (columns present and numeric
by the shape of `Row`, so only the price-logic check can produce an
error). -/
def validateStockData (odf : Option (List Row)) : BasicValidation :=
  match odf with
  | none => ⟨false, ["数据为空"], []⟩
  | some df =>
    if df.isEmpty then ⟨false, ["数据为空"], []⟩
    else
      let nBad := (df.filter invalidPriceRow).length
      let errors := if 0 < nBad then ["价格逻辑错误: " ++ toString nBad ++ "条"] else []
      let volN := (df.filter (fun r => r.volume < 0)).length
      let volWarn := if 0 < volN then ["成交量数据异常: " ++ toString volN ++ "条"] else []
      let warnings :=
        priceColWarning "Open" Row.opn df ++ priceColWarning "Close" Row.close df ++
        priceColWarning "High" Row.high df ++ priceColWarning "Low" Row.low df ++ volWarn
      ⟨errors.isEmpty, errors, warnings⟩

/-- One record of `validate_price_limit`'s violation list (its
`violation_type` entry is the constant `'exceed_limit'`). -/
structure Violation where
  date : Date
  price : Rat
  prev_close : Rat
  change_pct : Rat
  limit_rate : Rat
deriving DecidableEq, Repr

/-- Stable insertion of a row into a date-ascending list. -/
def insertByDate (r : Row) : List Row → List Row
  | [] => [r]
  | x :: xs => if r.date ≤ x.date then r :: x :: xs else x :: insertByDate r xs

/-- `df.sort_index()`: the rows in ascending index order. -/
def sortByDate : List Row → List Row
  | [] => []
  | r :: rs => insertByDate r (sortByDate rs)

/-- `df['Close'].shift(1)`: each row with the close of the previous row
(`none` for the first row, where the shifted value is `NaN`). -/
def withPrev (p : Option Rat) : List Row → List (Row × Option Rat)
  | [] => []
  | r :: rest => (r, p) :: withPrev (some r.close) rest

/-- The per-row check of `validate_price_limit`: the first row (with `NaN`
`prev_close`) is skipped; otherwise the absolute daily change is compared
against the limit plus the `0.001` tolerance. -/
def rowViolation (lr : Rat) : Row × Option Rat → Option Violation
  | (_, none) => none
  | (r, some p) =>
    let change := (r.close - p) / p
    if |change| > lr + 1/1000 then some ⟨r.date, r.close, p, change, lr⟩ else none

/-- The violation list of `validate_price_limit` on a non-empty frame. -/
def computeViolations (df : List Row) (symbol : String) : List Violation :=
  (withPrev none (sortByDate df)).filterMap (rowViolation (limitRateOf symbol))

/-- `AStockDataValidator.validate_price_limit` (`df.empty` on `None` raises
`AttributeError`). -/
def validatePriceLimit (odf : Option (List Row)) (symbol : String) :
    Except PyError (List Violation) :=
  match odf with
  | none => .error .attributeError
  | some df => if df.isEmpty then .ok [] else .ok (computeViolations df symbol)

/-- `AStockDataValidator.check_suspension_days` on a populated calendar;
each returned record is determined by its date (its other entries are the
constants `'suspension'` and `'停牌'`). -/
def checkSuspensionDays (odf : Option (List Row)) (s e : Date)
    (cal : List Date) : Except PyError (List Date) :=
  match odf with
  | none => .error .attributeError
  | some df =>
    if df.isEmpty then .ok []
    else
      let actual := df.map (·.date)
      .ok ((getTradingDays cal s e).filter (fun d => ! actual.contains d))

/-- One entry of the volume check's `issues` list (its `description` entry
is a string derived from `type` and `count`). -/
structure VolumeIssue where
  type : String
  count : Nat
deriving DecidableEq, Repr

/-- The result of `validate_volume_pattern`. -/
structure VolumeResult where
  valid : Bool
  issues : List VolumeIssue
deriving DecidableEq, Repr

/-- The 20-entry rolling window ending at index `i` (rows `i-19 .. i`);
meaningful when `19 ≤ i`, where the pandas rolling statistics stop being
`NaN`. -/
def window20 (v : List Rat) (i : Nat) : List Rat :=
  (v.take (i + 1)).drop (i + 1 - 20)

/-- The rolling mean at index `i`. -/
def rollMean (v : List Rat) (i : Nat) : Rat :=
  (window20 v i).sum / ((window20 v i).length : Rat)

/-- The rolling sample variance (`ddof = 1`, pandas' default) at index `i`:
the square of `rolling(20).std()`. -/
def rollVar (v : List Rat) (i : Nat) : Rat :=
  let w := window20 v i
  (w.map (fun x => (x - rollMean v i) ^ 2)).sum / (((w.length - 1 : Nat)) : Rat)

/-- `(volume < avg_volume * 0.1) & (volume > 0)` at index `i`; indices below
19 compare against `NaN` and are `False`. -/
def lowVolumeAt (v : List Rat) (i : Nat) : Bool :=
  19 ≤ i && decide (v.getD i 0 < rollMean v i * (1/10)) && decide (0 < v.getD i 0)

/-- `volume > rolling_mean + 3 * rolling_std` at index `i`, written without
square roots: over the reals, for `std = √var ≥ 0`, `x > m + 3·std` holds
exactly when `x - m > 0` and `(x - m)² > 9·var`.  Indices below 19 compare
against `NaN` and are `False`. -/
def highVolumeAt (v : List Rat) (i : Nat) : Bool :=
  19 ≤ i && decide (rollMean v i < v.getD i 0) &&
  decide (9 * rollVar v i < (v.getD i 0 - rollMean v i) ^ 2)

/-- The number of indices of `v` satisfying `p`. -/
def countIdx (v : List Rat) (p : Nat → Bool) : Nat :=
  ((List.range v.length).filter p).length

/-- The issue list of `validate_volume_pattern` on a non-empty frame, in the
source's order: low-volume, zero-volume, high-volume. -/
def computeVolumeIssues (df : List Row) : VolumeResult :=
  let v := df.map (·.volume)
  let lowIssues :=
    if 20 < v.length then
      (let n := countIdx v (lowVolumeAt v)
       if 0 < n then [⟨"low_volume", n⟩] else [])
    else []
  let zeroN := (v.filter (fun x => x = 0)).length
  let zeroIssues := if 0 < zeroN then [⟨"zero_volume", zeroN⟩] else []
  let highIssues :=
    if 20 < v.length then
      (let n := countIdx v (highVolumeAt v)
       if 0 < n then [⟨"high_volume", n⟩] else [])
    else []
  let issues := lowIssues ++ zeroIssues ++ highIssues
  ⟨issues.isEmpty, issues⟩

/-- `AStockDataValidator.validate_volume_pattern` (the `Volume` column is
present by the shape of `Row`, so only emptiness hits the early return). -/
def validateVolumePattern (odf : Option (List Row)) :
    Except PyError VolumeResult :=
  match odf with
  | none => .error .attributeError
  | some df => if df.isEmpty then .ok ⟨false, []⟩ else .ok (computeVolumeIssues df)

/-- A gap record of `check_data_continuity`: a `single_gap` date, or a
`continuous_gap` with its first date, last date and day count (`stop` is
the source's key `'end'`). -/
inductive Gap where
  | single (date : Date)
  | range (start stop : Date) (days : Nat)
deriving DecidableEq, Repr

/-- Ascending insertion into a sorted list of dates. -/
def insertDate (x : Date) : List Date → List Date
  | [] => [x]
  | y :: ys => if x ≤ y then x :: y :: ys else y :: insertDate x ys

/-- Python's `sorted` on a list of dates. -/
def sortDates : List Date → List Date
  | [] => []
  | x :: xs => insertDate x (sortDates xs)

/-- The run-splitting loop of `check_data_continuity`: `cur` is the reversed
`current_gap`; a new run starts whenever the next date is not exactly one
day after the previous one. -/
def runsFrom (x : Date) (cur : List Date) : List Date → List (List Date)
  | [] => [cur.reverse]
  | y :: ys =>
    if y = x + 1 then runsFrom y (y :: cur) ys
    else cur.reverse :: runsFrom y [y] ys

/-- The maximal runs of consecutive dates of a (sorted) list. -/
def groupRuns : List Date → List (List Date)
  | [] => []
  | x :: xs => runsFrom x [x] xs

/-- The gap record built from one finished run. -/
def gapOfRun : List Date → Gap
  | [] => .single 0
  | [d] => .single d
  | d :: rest => .range d (rest.getLastD d) (rest.length + 1)

/-- The result dictionary of `check_data_continuity`; on an empty frame the
source returns `{'continuous': False, 'gaps': []}` **without** the
`'total_gaps'` key, which `total_gaps = none` records. -/
structure ContinuityResult where
  continuous : Bool
  gaps : List Gap
  total_gaps : Option Nat
deriving DecidableEq, Repr

/-- `AStockDataValidator.check_data_continuity` on a populated calendar. -/
def checkDataContinuity (odf : Option (List Row)) (cal : List Date) :
    Except PyError ContinuityResult :=
  match odf with
  | none => .error .attributeError
  | some [] => .ok ⟨false, [], none⟩
  | some (r :: rest) =>
    let dates := (r :: rest).map (·.date)
    let dmin := rest.foldl (fun a q => Nat.min a q.date) r.date
    let dmax := rest.foldl (fun a q => Nat.max a q.date) r.date
    let expected := getTradingDays cal dmin dmax
    let missing := sortDates ((expected.filter (fun d => ! dates.contains d)).dedup)
    let gaps := (groupRuns missing).map gapOfRun
    .ok ⟨gaps.isEmpty, gaps, some gaps.length⟩

/-- The full report of `get_validation_report`; `validation_date` (wall
clock) is omitted, `overall_score` is integral (the float arithmetic of the
source only ever subtracts integers from `100.0`). -/
structure ValidationReport where
  symbol : String
  date_range : Date × Date
  basic_validation : BasicValidation
  price_limit_violations : List Violation
  suspension_days : List Date
  volume_validation : VolumeResult
  continuity_check : ContinuityResult
  overall_score : Int
deriving DecidableEq, Repr

/-- `AStockDataValidator._calculate_overall_score`: sequential deductions
from 100, then `max(score, 0)`; reading `continuity['total_gaps']` on a
dictionary without that key raises `KeyError`. -/
def calculateOverallScore (r : ValidationReport) : Except PyError Int :=
  let s0 : Int := 100
  let s1 := if r.basic_validation.valid then s0 else s0 - 20
  let nv : Int := r.price_limit_violations.length
  let s2 := if 0 < nv then s1 - min (nv * 5) 30 else s1
  let ns : Int := r.suspension_days.length
  let s3 := if 0 < ns then s2 - min (ns * 2) 20 else s2
  let ni : Int := r.volume_validation.issues.length
  let s4 := if 0 < ni then s3 - min (ni * 3) 15 else s3
  if r.continuity_check.continuous then .ok (max s4 0)
  else
    match r.continuity_check.total_gaps with
    | none => .error .keyError
    | some g => .ok (max (s4 - min ((g : Int) * 3) 15) 0)

/-- `AStockDataValidator.get_validation_report`: the components in the
evaluation order of the source's dictionary literal, then the overall
score. -/
def getValidationReport (odf : Option (List Row)) (symbol : String)
    (s e : Date) (cal : List Date) : Except PyError ValidationReport :=
  let basic := validateStockData odf
  match validatePriceLimit odf symbol with
  | .error err => .error err
  | .ok viol =>
    match checkSuspensionDays odf s e cal with
    | .error err => .error err
    | .ok susp =>
      match validateVolumePattern odf with
      | .error err => .error err
      | .ok vol =>
        match checkDataContinuity odf cal with
        | .error err => .error err
        | .ok cont =>
          let r0 : ValidationReport := ⟨symbol, (s, e), basic, viol, susp, vol, cont, 0⟩
          match calculateOverallScore r0 with
          | .error err => .error err
          | .ok sc => .ok { r0 with overall_score := sc }

/-- The deduction of the basic check: 20 when it is invalid. -/
def basicDeduction (b : BasicValidation) : Int := if b.valid then 0 else 20

/-- The deduction of the price-limit check. -/
def violationDeduction (vs : List Violation) : Int :=
  if 0 < vs.length then min ((vs.length : Int) * 5) 30 else 0

/-- The deduction of the suspension check. -/
def suspensionDeduction (ds : List Date) : Int :=
  if 0 < ds.length then min ((ds.length : Int) * 2) 20 else 0

/-- The deduction of the volume check. -/
def volumeDeduction (vr : VolumeResult) : Int :=
  if 0 < vr.issues.length then min ((vr.issues.length : Int) * 3) 15 else 0

/-- The deduction of the continuity check (only evaluated by the source when
`total_gaps` is present). -/
def continuityDeduction (c : ContinuityResult) : Int :=
  if c.continuous then 0 else min ((c.total_gaps.getD 0 : Int) * 3) 15

/-- The sum of the five checks' deductions of a report. -/
def scoreDeductions (r : ValidationReport) : Int :=
  basicDeduction r.basic_validation +
  violationDeduction r.price_limit_violations +
  suspensionDeduction r.suspension_days +
  volumeDeduction r.volume_validation +
  continuityDeduction r.continuity_check

/-- A well-formed one-day frame used to instantiate the report claims. -/
def sampleRow : Row := ⟨0, 10, 11, 9, 10, 1000⟩

/-- The report `get_validation_report` produces on `[sampleRow]` with
symbol `000001`, range day 0 to day 0 and calendar `[0]`. -/
def sampleReport : ValidationReport :=
  ⟨"000001", (0, 0), ⟨true, [], []⟩, [], [], ⟨true, []⟩, ⟨true, [], some 0⟩, 100⟩

/-- Two rows a day apart whose second close is 12% above the first. -/
def row1 : Row := ⟨0, 10, 12, 9, 10, 1000⟩

/-- See `row1`: close 56/5 = 11.2 = 10 · 1.12. -/
def row2 : Row := ⟨1, 10, 12, 9, 56/5, 1000⟩

end AStockDataValidator


open AStockCalendar AStockDataValidator

/-- C3 counterexample: the claim says `standardize "000000"` yields the
absence value (a sentinel exclusion); the code infers the `000` range and
returns `000000.SZ`. -/
theorem c3_counterexample : AStockCode.standardize "000000" = some "000000.SZ" := by
  decide

/-- C3 (amended): `standardize` yields absence on `"999999"`, `"1234567"`,
`"ABCDEF"` and an absent input, but `"000000"` matches the `000` range of
the inference table and is standardized to `000000.SZ` — no sentinel
exclusion of `000000` exists in the code (`999999` is rejected only because
`999` is in no range). -/
theorem c3_amended :
    AStockCode.standardizeOpt (some "999999") = none ∧
    AStockCode.standardizeOpt (some "1234567") = none ∧
    AStockCode.standardizeOpt (some "ABCDEF") = none ∧
    AStockCode.standardizeOpt none = none ∧
    AStockCode.standardizeOpt (some "000000") = some "000000.SZ" := by
  decide

/-- C2 counterexample: with a populated calendar and `start` (day 30)
strictly after `end` (day 0), `get_trading_days` runs without raising and
returns the empty list — the range usage error the claim requires does not
exist. -/
theorem c2_counterexample :
    AStockCalendar.getTradingDaysRun [0, 2, 5, 30] 30 0 = Except.ok [] := by
  decide

/-- C2 (amended): for every populated calendar and every pair of dates with
`start` strictly after `end`, `get_trading_days` raises nothing and returns
the empty sequence (the source has no `start > end` check at all). -/
theorem c2_amended : ∀ (td : List Date) (s e : Date), e < s →
    AStockCalendar.getTradingDaysRun td s e = Except.ok [] := by
  intro td s e h
  unfold AStockCalendar.getTradingDaysRun AStockCalendar.getTradingDays
  congr 1
  rw [List.filter_eq_nil_iff]
  intro d _
  simp only [Bool.and_eq_true, decide_eq_true_eq, not_and]
  intro h1 h2
  exact absurd (Nat.le_trans h1 h2) (Nat.not_le_of_lt h)

theorem c2_witness : AStockCalendar.getTradingDaysRun [3, 7] 9 1 = Except.ok [] :=
  c2_amended [3, 7] 9 1 (by decide)

/-- C5 counterexample: on trading day 5 the code returns the single
`(open, close)` pair 09:30/15:00 — one pair of datetimes, not two sessions;
the 11:30 morning close and 13:00 afternoon open of the claim (the
spec-modelled `specTradingHours`) appear nowhere in the returned value. -/
theorem c5_counterexample :
    AStockCalendar.getTradingHours [5] 5 = some ((5, 570), (5, 900)) ∧
    AStockCalendar.specTradingHours [5] 5 = some ((570, 690), (780, 900)) := by
  decide

/-- C5 (amended): on a populated calendar, `get_trading_hours` returns the
single pair (opening datetime 09:30, closing datetime 15:00) exactly on
trading days, and the absence value exactly on non-trading days; the midday
break is not represented in the result. -/
theorem c5_amended : ∀ (td : List Date) (d : Date),
    (AStockCalendar.getTradingHours td d = some ((d, 570), (d, 900)) ↔ d ∈ td) ∧
    (AStockCalendar.getTradingHours td d = none ↔ d ∉ td) := by
  intro td d
  unfold AStockCalendar.getTradingHours AStockCalendar.isTradingDay
  by_cases h : d ∈ td <;> simp [h]

/-- C8 counterexample: `_load_calendar_cache` installs the snapshot's
trading-day list exactly as stored, with no sorting or deduplication; from
the snapshot `[5, 2]`, `get_trading_days 1 10` returns `[5, 2]`, which is
not strictly ascending — so the claim's sortedness guarantee fails for a
calendar populated from a persisted snapshot. -/
theorem c8_counterexample :
    (AStockCalendar.loadCalendarCache (some ⟨[5, 2], []⟩)
        ⟨none, none⟩).trading_days = some [5, 2] ∧
    AStockCalendar.getTradingDays [5, 2] 1 10 = [5, 2] ∧
    ¬ List.Pairwise (fun x y => x < y) (AStockCalendar.getTradingDays [5, 2] 1 10) := by
  refine ⟨rfl, by decide, by decide⟩

/-- C8 (amended): on a populated calendar with `a ≤ b`, every date
`get_trading_days` returns lies in `[a, b]` and `count_trading_days` equals
its length — unconditionally; the result is strictly ascending whenever the
stored trading-day sequence is strictly ascending (which the fetch path's
`sorted` gives, but which loading a persisted snapshot does not
re-establish). -/
theorem c8_amended : ∀ (td : List Date) (a b : Date), a ≤ b →
    (∀ d ∈ AStockCalendar.getTradingDays td a b, a ≤ d ∧ d ≤ b) ∧
    AStockCalendar.countTradingDays td a b =
      (AStockCalendar.getTradingDays td a b).length ∧
    (List.Pairwise (fun x y => x < y) td →
      List.Pairwise (fun x y => x < y) (AStockCalendar.getTradingDays td a b)) := by
  intro td a b _
  refine ⟨?_, rfl, ?_⟩
  · intro d hd
    unfold AStockCalendar.getTradingDays at hd
    rw [List.mem_filter] at hd
    have := hd.2
    simp only [Bool.and_eq_true, decide_eq_true_eq] at this
    exact this
  · intro hp
    exact hp.filter _

theorem c8_witness :
    (∀ d ∈ AStockCalendar.getTradingDays [1, 3, 7] 0 5, 0 ≤ d ∧ d ≤ 5) ∧
    AStockCalendar.countTradingDays [1, 3, 7] 0 5 =
      (AStockCalendar.getTradingDays [1, 3, 7] 0 5).length ∧
    (List.Pairwise (fun x y => x < y) [1, 3, 7] →
      List.Pairwise (fun x y => x < y) (AStockCalendar.getTradingDays [1, 3, 7] 0 5)) :=
  c8_amended [1, 3, 7] 0 5 (by decide)

/-- C1 counterexample: on a completely empty series the claim promises a
report with `overallScore = 0`; instead `get_validation_report` raises a
`KeyError` (the empty-frame result of `check_data_continuity` lacks the
`total_gaps` key that `_calculate_overall_score` reads) and produces no
report at all. -/
theorem c1_counterexample :
    AStockDataValidator.getValidationReport (some []) "000001" 0 30 [0, 1, 2] =
      Except.error PyError.keyError := by
  rfl

/-- C1 (amended): on an empty series the structural check is indeed marked
invalid, but `get_validation_report` returns no report: it raises
`KeyError` while scoring (the continuity result of an empty frame has no
`total_gaps` key), and on an absent (`None`) table it raises
`AttributeError` in `validate_price_limit` — so no `overallScore` (of 0 or
otherwise) is produced. -/
theorem c1_amended : ∀ (symbol : String) (s e : Date) (cal : List Date),
    (AStockDataValidator.validateStockData (some [])).valid = false ∧
    AStockDataValidator.getValidationReport (some []) symbol s e cal =
      Except.error PyError.keyError ∧
    AStockDataValidator.getValidationReport none symbol s e cal =
      Except.error PyError.attributeError := by
  intro symbol s e cal
  exact ⟨rfl, rfl, rfl⟩

/-- C10: a series of at most 20 rows never reports a low-volume or
high-volume anomaly (both rolling-window tests run only beyond 20 rows);
every issue the volume check can report on such a series is a zero-volume
issue. -/
theorem c10_short_series : ∀ (df : List Row) (r : VolumeResult),
    df.length ≤ 20 →
    AStockDataValidator.validateVolumePattern (some df) = Except.ok r →
    r.issues.all (fun i => i.type == "zero_volume") = true := by
  intro df r hlen h
  cases df with
  | nil =>
    simp only [AStockDataValidator.validateVolumePattern, List.isEmpty_nil,
      if_true, Except.ok.injEq] at h
    subst h
    rfl
  | cons a as =>
    simp only [AStockDataValidator.validateVolumePattern, List.isEmpty_cons,
      if_false, Except.ok.injEq, Bool.false_eq_true] at h
    subst h
    have hv : ¬ (20 < (List.map Row.volume (a :: as)).length) := by
      rw [List.length_map]
      omega
    simp only [AStockDataValidator.computeVolumeIssues, if_neg hv,
      List.nil_append, List.append_nil]
    split
    · rfl
    · rfl

/-- Whenever `_calculate_overall_score` returns a value, that value is
`max(0, 100 − Σ deductions)` and lies in `[0, 100]`. -/
theorem calcScore_spec (r : ValidationReport) (v : Int)
    (h : AStockDataValidator.calculateOverallScore r = Except.ok v) :
    0 ≤ v ∧ v ≤ 100 ∧ v = max 0 (100 - AStockDataValidator.scoreDeductions r) := by
  simp only [AStockDataValidator.calculateOverallScore] at h
  cases hc : r.continuity_check.continuous with
  | true =>
    rw [hc] at h
    simp only [if_true, Except.ok.injEq] at h
    subst h
    simp only [AStockDataValidator.scoreDeductions, AStockDataValidator.basicDeduction,
      AStockDataValidator.violationDeduction, AStockDataValidator.suspensionDeduction,
      AStockDataValidator.volumeDeduction, AStockDataValidator.continuityDeduction,
      hc, if_true]
    split_ifs <;> omega
  | false =>
    rw [hc] at h
    simp only [Bool.false_eq_true, if_false] at h
    cases hg : r.continuity_check.total_gaps with
    | none => rw [hg] at h; exact absurd h (by simp)
    | some g =>
      rw [hg] at h
      simp only [Except.ok.injEq] at h
      subst h
      simp only [AStockDataValidator.scoreDeductions, AStockDataValidator.basicDeduction,
        AStockDataValidator.violationDeduction, AStockDataValidator.suspensionDeduction,
        AStockDataValidator.volumeDeduction, AStockDataValidator.continuityDeduction,
        hc, hg, Option.getD_some, Bool.false_eq_true, if_false]
      split_ifs <;> omega

/-- C6: whenever `get_validation_report` returns a report, its
`overall_score` equals `max(0, 100 − Σ)` for `Σ` the sum of the five
checks' deductions, and in particular lies in the closed interval
`[0, 100]`. -/
theorem c6_score : ∀ (odf : Option (List Row)) (symbol : String)
    (s e : Date) (cal : List Date) (r : ValidationReport),
    AStockDataValidator.getValidationReport odf symbol s e cal = Except.ok r →
    0 ≤ r.overall_score ∧ r.overall_score ≤ 100 ∧
    r.overall_score = max 0 (100 - AStockDataValidator.scoreDeductions r) := by
  intro odf symbol s e cal r h
  simp only [AStockDataValidator.getValidationReport] at h
  split at h
  · exact absurd h (by simp)
  · split at h
    · exact absurd h (by simp)
    · split at h
      · exact absurd h (by simp)
      · split at h
        · exact absurd h (by simp)
        · split at h
          · exact absurd h (by simp)
          · rename_i heq
            rw [Except.ok.injEq] at h
            subst h
            exact calcScore_spec _ _ heq

theorem c6_witness :
    0 ≤ AStockDataValidator.sampleReport.overall_score ∧
    AStockDataValidator.sampleReport.overall_score ≤ 100 ∧
    AStockDataValidator.sampleReport.overall_score =
      max 0 (100 - AStockDataValidator.scoreDeductions AStockDataValidator.sampleReport) :=
  c6_score (some [AStockDataValidator.sampleRow]) "000001" 0 0 [0]
    AStockDataValidator.sampleReport (by decide)

/-- C9: on any two-row series whose second close is 12% above a positive
first close, a symbol with a 10% limit records exactly the one violation at
the second row (whose absolute change 12% exceeds 10% + 0.1%), while a
symbol with the STAR-Market 20% limit records none (12% ≤ 20% + 0.1%); the
score deduction of the violation list is `min(5 · count, 30)`. -/
theorem c9_price_limit : ∀ (r1 r2 : Row) (symM symK : String),
    r1.date < r2.date → 0 < r1.close → r2.close = r1.close * (112/100) →
    AStockDataValidator.limitRateOf symM = 1/10 →
    AStockDataValidator.limitRateOf symK = 1/5 →
    AStockDataValidator.validatePriceLimit (some [r1, r2]) symM =
      Except.ok [⟨r2.date, r2.close, r1.close, 12/100, 1/10⟩] ∧
    AStockDataValidator.validatePriceLimit (some [r1, r2]) symK = Except.ok [] ∧
    (∀ vs : List Violation,
      AStockDataValidator.violationDeduction vs = min ((vs.length : Int) * 5) 30) := by
  intro r1 r2 symM symK hd hc h12 hM hK
  have hc0 : r1.close ≠ 0 := ne_of_gt hc
  have hchange : (r2.close - r1.close) / r1.close = 12/100 := by
    rw [h12]
    field_simp
    ring
  have hsort : AStockDataValidator.sortByDate [r1, r2] = [r1, r2] := by
    simp [AStockDataValidator.sortByDate, AStockDataValidator.insertByDate,
      Nat.le_of_lt hd]
  refine ⟨?_, ?_, ?_⟩
  · simp only [AStockDataValidator.validatePriceLimit, List.isEmpty_cons,
      Bool.false_eq_true, if_false, Except.ok.injEq]
    unfold AStockDataValidator.computeViolations
    rw [hsort, hM]
    simp only [AStockDataValidator.withPrev, List.filterMap_cons, List.filterMap_nil,
      AStockDataValidator.rowViolation]
    rw [hchange, if_pos (by rw [abs_of_nonneg (by norm_num)]; norm_num)]
  · simp only [AStockDataValidator.validatePriceLimit, List.isEmpty_cons,
      Bool.false_eq_true, if_false, Except.ok.injEq]
    unfold AStockDataValidator.computeViolations
    rw [hsort, hK]
    simp only [AStockDataValidator.withPrev, List.filterMap_cons, List.filterMap_nil,
      AStockDataValidator.rowViolation]
    rw [hchange, if_neg (by rw [abs_of_nonneg (by norm_num)]; norm_num)]
  · intro vs
    unfold AStockDataValidator.violationDeduction
    split_ifs with h <;> omega

theorem c9_witness :
    AStockDataValidator.validatePriceLimit
        (some [AStockDataValidator.row1, AStockDataValidator.row2]) "000001" =
      Except.ok [⟨1, 56/5, 10, 12/100, 1/10⟩] ∧
    AStockDataValidator.validatePriceLimit
        (some [AStockDataValidator.row1, AStockDataValidator.row2]) "688981" =
      Except.ok [] := by
  have h := c9_price_limit AStockDataValidator.row1 AStockDataValidator.row2
    "000001" "688981" (by decide) (by decide) (by norm_num [AStockDataValidator.row1,
      AStockDataValidator.row2]) (by rfl) (by rfl)
  exact ⟨h.1, h.2.1⟩

theorem c10_witness :
    (({ valid := false, issues := [⟨"zero_volume", 1⟩] } : VolumeResult)).issues.all
      (fun i => i.type == "zero_volume") = true :=
  c10_short_series [⟨0, 10, 11, 9, 10, 0⟩]
    ⟨false, [⟨"zero_volume", 1⟩]⟩ (by decide) (by decide)

/-- `takeDigits6` succeeds exactly on the splits of the input into six
leading digits and a remainder. -/
theorem takeDigits6_eq_some {l d rest : List Char} :
    AStockCode.takeDigits6 l = some (d, rest) ↔
    (l = d ++ rest ∧ d.length = 6 ∧ d.all AStockCode.isDig = true) := by
  constructor
  · intro h
    simp only [AStockCode.takeDigits6] at h
    split at h
    · rename_i hcond
      simp only [Bool.and_eq_true, decide_eq_true_eq] at hcond
      rw [Option.some.injEq, Prod.mk.injEq] at h
      obtain ⟨hd, hrest⟩ := h
      subst hd
      subst hrest
      exact ⟨(List.take_append_drop 6 l).symm, hcond.1, hcond.2⟩
    · exact absurd h (by simp)
  · rintro ⟨rfl, hlen, hall⟩
    simp only [AStockCode.takeDigits6]
    rw [List.take_left' hlen, List.drop_left' hlen, if_pos (by simp [hlen, hall])]

/-- `matchMarket` succeeds exactly on inputs headed by one of the three
exchange tags, and consumes exactly that tag. -/
theorem matchMarket_eq_some {l : List Char} {m : String} {r : List Char} :
    AStockCode.matchMarket l = some (m, r) ↔
    (AStockCode.marketStr m ∧ l = m.toList ++ r) := by
  constructor
  · intro h
    unfold AStockCode.matchMarket at h
    split at h
    · rw [Option.some.injEq, Prod.mk.injEq] at h
      obtain ⟨rfl, rfl⟩ := h
      exact ⟨Or.inl rfl, rfl⟩
    · rw [Option.some.injEq, Prod.mk.injEq] at h
      obtain ⟨rfl, rfl⟩ := h
      exact ⟨Or.inr (Or.inl rfl), rfl⟩
    · rw [Option.some.injEq, Prod.mk.injEq] at h
      obtain ⟨rfl, rfl⟩ := h
      exact ⟨Or.inr (Or.inr rfl), rfl⟩
    · exact absurd h (by simp)
  · rintro ⟨hm, rfl⟩
    rcases hm with rfl | rfl | rfl <;> rfl

/-- Every market the inference table can yield is one of the three tags. -/
theorem inferMarket_marketStr {c m : String}
    (h : AStockCode.inferMarket c = some m) : AStockCode.marketStr m := by
  unfold AStockCode.inferMarket at h
  split at h
  · exact absurd h (by simp)
  · rw [Option.map_eq_some'] at h
    obtain ⟨kv, hfind, hm⟩ := h
    have hmem := List.mem_of_find?_eq_some hfind
    have hall : ∀ kv ∈ AStockCode.BOARD_DEFINITIONS,
        (kv.2 = "SH" ∨ kv.2 = "SZ" ∨ kv.2 = "BJ") := by decide
    rw [← hm]
    exact hall kv hmem

theorem dropWhile_eq_self_of {p : Char → Bool} {l : List Char}
    (h : ∀ c ∈ l, p c = false) : l.dropWhile p = l := by
  cases l with
  | nil => rfl
  | cons a t =>
    rw [List.dropWhile_cons, h a (List.mem_cons_self a t)]
    simp

/-- Stripping is the identity on whitespace-free strings. -/
theorem pyStrip_eq_self {l : List Char}
    (h : ∀ c ∈ l, AStockCode.isPyWhitespace c = false) :
    AStockCode.pyStrip l = l := by
  unfold AStockCode.pyStrip
  rw [dropWhile_eq_self_of h,
    dropWhile_eq_self_of (fun c hc => h c (List.mem_reverse.mp hc)),
    List.reverse_reverse]

/-- Uppercasing is the identity on lists of fixed points. -/
theorem pyUpper_eq_self {l : List Char}
    (h : ∀ c ∈ l, AStockCode.pyToUpper c = c) :
    AStockCode.pyUpper l = l := by
  unfold AStockCode.pyUpper
  rw [List.map_congr_left h]
  simp

/-- A digit is not Python whitespace. -/
theorem isDig_not_ws {c : Char} (h : AStockCode.isDig c = true) :
    AStockCode.isPyWhitespace c = false := by
  unfold AStockCode.isDig at h
  simp only [Bool.and_eq_true, decide_eq_true_eq] at h
  unfold AStockCode.isPyWhitespace
  simp only [Bool.or_eq_false_iff, decide_eq_false_iff_not]
  omega

/-- A digit is a fixed point of uppercasing. -/
theorem isDig_toUpper {c : Char} (h : AStockCode.isDig c = true) :
    AStockCode.pyToUpper c = c := by
  unfold AStockCode.isDig at h
  simp only [Bool.and_eq_true, decide_eq_true_eq] at h
  unfold AStockCode.pyToUpper
  rw [if_neg]
  rintro ⟨h1, h2⟩
  omega

/-- The characters of `canonical d m`. -/
theorem canonical_data {d : List Char} {m : String} :
    (AStockCode.canonical d m).toList = d ++ '.' :: m.toList := by
  show (String.mk d ++ "." ++ m).data = d ++ '.' :: m.data
  rw [String.data_append, String.data_append]
  simp

/-- `canonical d m` is never the empty string. -/
theorem canonical_ne_empty {d : List Char} {m : String} :
    AStockCode.canonical d m ≠ "" := by
  intro h
  have h2 : (AStockCode.canonical d m).toList = d ++ '.' :: m.toList :=
    canonical_data
  rw [h] at h2
  have h4 : ([] : List Char) = d ++ '.' :: m.toList := h2
  have h5 := congrArg List.length h4
  simp only [List.length_nil, List.length_append, List.length_cons] at h5
  omega

/-- The characters of the three exchange tags are non-whitespace fixed
points of uppercasing. -/
theorem market_chars {m : String} (hm : AStockCode.marketStr m) :
    ∀ c ∈ m.toList,
      AStockCode.isPyWhitespace c = false ∧ AStockCode.pyToUpper c = c := by
  rcases hm with rfl | rfl | rfl <;> decide

/-- A successful run of the suffix-form regex decomposes its input into six
digits, an optionally dotted exchange tag, and an ignored remainder. -/
theorem matchCodeThenMarket_shape {l d : List Char} {m : String}
    (h : AStockCode.matchCodeThenMarket l = some (d, m)) :
    AStockCode.digits6 d ∧ AStockCode.marketStr m ∧
    ∃ q, l = d ++ (m.toList ++ q) ∨ l = d ++ '.' :: (m.toList ++ q) := by
  unfold AStockCode.matchCodeThenMarket at h
  split at h
  · exact absurd h (by simp)
  · rename_i d0 rest heq
    obtain ⟨hl, hlen, hall⟩ := takeDigits6_eq_some.mp heq
    split at h
    · rename_i r2
      split at h
      · rename_i m0 rest0 heq2
        rw [Option.some.injEq, Prod.mk.injEq] at h
        obtain ⟨rfl, rfl⟩ := h
        obtain ⟨hm, hr2⟩ := matchMarket_eq_some.mp heq2
        exact ⟨⟨hlen, hall⟩, hm, rest0, Or.inr (by rw [hl, hr2])⟩
      · split at h
        · rename_i m0 rest0 heq3
          obtain ⟨hm0, habs⟩ := matchMarket_eq_some.mp heq3
          rcases hm0 with rfl | rfl | rfl <;> simp at habs
        · exact absurd h (by simp)
    · split at h
      · rename_i m0 rest0 heq2
        rw [Option.some.injEq, Prod.mk.injEq] at h
        obtain ⟨rfl, rfl⟩ := h
        obtain ⟨hm, hr⟩ := matchMarket_eq_some.mp heq2
        exact ⟨⟨hlen, hall⟩, hm, rest0, Or.inl (by rw [hl, hr])⟩
      · exact absurd h (by simp)

/-- A successful run of the tag-first regex decomposes its input into an
exchange tag, six digits, and an ignored remainder. -/
theorem matchMarketThenCode_shape {l d : List Char} {m : String}
    (h : AStockCode.matchMarketThenCode l = some (d, m)) :
    AStockCode.digits6 d ∧ AStockCode.marketStr m ∧
    ∃ q, l = m.toList ++ (d ++ q) := by
  unfold AStockCode.matchMarketThenCode at h
  split at h
  · exact absurd h (by simp)
  · rename_i m0 rest heq
    obtain ⟨hm0, hl⟩ := matchMarket_eq_some.mp heq
    split at h
    · rename_i d0 q0 heq2
      rw [Option.some.injEq, Prod.mk.injEq] at h
      obtain ⟨rfl, rfl⟩ := h
      obtain ⟨hrest, hlen, hall⟩ := takeDigits6_eq_some.mp heq2
      exact ⟨⟨hlen, hall⟩, hm0, q0, by rw [hl, hrest]⟩
    · exact absurd h (by simp)

/-- Construction: the suffix-form regex accepts six digits followed
directly by an exchange tag, whatever trails them. -/
theorem matchCodeThenMarket_of_nodot {d q : List Char} {m : String}
    (hd : AStockCode.digits6 d) (hm : AStockCode.marketStr m) :
    AStockCode.matchCodeThenMarket (d ++ (m.toList ++ q)) = some (d, m) := by
  rcases hm with rfl | rfl | rfl
  · have ht : AStockCode.takeDigits6 (d ++ 'S' :: 'H' :: q) =
        some (d, 'S' :: 'H' :: q) := takeDigits6_eq_some.mpr ⟨rfl, hd.1, hd.2⟩
    simp [AStockCode.matchCodeThenMarket, ht, AStockCode.matchMarket,
      show ("SH".toList : List Char) = ['S', 'H'] from rfl]
  · have ht : AStockCode.takeDigits6 (d ++ 'S' :: 'Z' :: q) =
        some (d, 'S' :: 'Z' :: q) := takeDigits6_eq_some.mpr ⟨rfl, hd.1, hd.2⟩
    simp [AStockCode.matchCodeThenMarket, ht, AStockCode.matchMarket,
      show ("SZ".toList : List Char) = ['S', 'Z'] from rfl]
  · have ht : AStockCode.takeDigits6 (d ++ 'B' :: 'J' :: q) =
        some (d, 'B' :: 'J' :: q) := takeDigits6_eq_some.mpr ⟨rfl, hd.1, hd.2⟩
    simp [AStockCode.matchCodeThenMarket, ht, AStockCode.matchMarket,
      show ("BJ".toList : List Char) = ['B', 'J'] from rfl]

/-- Construction: the suffix-form regex accepts six digits, a dot, and an
exchange tag, whatever trails them. -/
theorem matchCodeThenMarket_of_dot {d q : List Char} {m : String}
    (hd : AStockCode.digits6 d) (hm : AStockCode.marketStr m) :
    AStockCode.matchCodeThenMarket (d ++ '.' :: (m.toList ++ q)) = some (d, m) := by
  rcases hm with rfl | rfl | rfl
  · have ht : AStockCode.takeDigits6 (d ++ '.' :: 'S' :: 'H' :: q) =
        some (d, '.' :: 'S' :: 'H' :: q) := takeDigits6_eq_some.mpr ⟨rfl, hd.1, hd.2⟩
    simp [AStockCode.matchCodeThenMarket, ht, AStockCode.matchMarket,
      show ("SH".toList : List Char) = ['S', 'H'] from rfl]
  · have ht : AStockCode.takeDigits6 (d ++ '.' :: 'S' :: 'Z' :: q) =
        some (d, '.' :: 'S' :: 'Z' :: q) := takeDigits6_eq_some.mpr ⟨rfl, hd.1, hd.2⟩
    simp [AStockCode.matchCodeThenMarket, ht, AStockCode.matchMarket,
      show ("SZ".toList : List Char) = ['S', 'Z'] from rfl]
  · have ht : AStockCode.takeDigits6 (d ++ '.' :: 'B' :: 'J' :: q) =
        some (d, '.' :: 'B' :: 'J' :: q) := takeDigits6_eq_some.mpr ⟨rfl, hd.1, hd.2⟩
    simp [AStockCode.matchCodeThenMarket, ht, AStockCode.matchMarket,
      show ("BJ".toList : List Char) = ['B', 'J'] from rfl]

/-- Construction: the tag-first regex accepts an exchange tag followed by
six digits, whatever trails them. -/
theorem matchMarketThenCode_of {d q : List Char} {m : String}
    (hd : AStockCode.digits6 d) (hm : AStockCode.marketStr m) :
    AStockCode.matchMarketThenCode (m.toList ++ (d ++ q)) = some (d, m) := by
  have ht : AStockCode.takeDigits6 (d ++ q) = some (d, q) :=
    takeDigits6_eq_some.mpr ⟨rfl, hd.1, hd.2⟩
  rcases hm with rfl | rfl | rfl
  · simp [AStockCode.matchMarketThenCode, ht, AStockCode.matchMarket,
      show ("SH".toList : List Char) = ['S', 'H'] from rfl]
  · simp [AStockCode.matchMarketThenCode, ht, AStockCode.matchMarket,
      show ("SZ".toList : List Char) = ['S', 'Z'] from rfl]
  · simp [AStockCode.matchMarketThenCode, ht, AStockCode.matchMarket,
      show ("BJ".toList : List Char) = ['B', 'J'] from rfl]

/-- Master decomposition: every successful `standardize x` yields a
canonical string `digits.MARKET`, and the cleaned input splits into an
accepted-shape head followed by an arbitrary (ignored) remainder. -/
theorem standardize_eq_some {x s : String} (h : AStockCode.standardize x = some s) :
    x ≠ "" ∧
    (∃ d m, s = AStockCode.canonical d m ∧ AStockCode.digits6 d ∧
      AStockCode.marketStr m) ∧
    (∃ p q, AStockCode.pyUpper (AStockCode.pyStrip x.toList) = p ++ q ∧
      AStockCode.acceptedShape p) := by
  simp only [AStockCode.standardize] at h
  split at h
  · exact absurd h (by simp)
  · rename_i hx
    refine ⟨hx, ?_⟩
    split at h
    · rename_i d m heq
      rw [Option.some.injEq] at h
      obtain ⟨hd, hm, q, hdisj⟩ := matchCodeThenMarket_shape heq
      refine ⟨⟨d, m, h.symm, hd, hm⟩, ?_⟩
      rcases hdisj with hl | hl
      · exact ⟨d ++ m.toList, q,
          by rw [hl, List.append_assoc],
          Or.inl ⟨d, m, hd, hm, Or.inl rfl⟩⟩
      · exact ⟨d ++ '.' :: m.toList, q,
          by rw [hl]; simp,
          Or.inl ⟨d, m, hd, hm, Or.inr rfl⟩⟩
    · split at h
      · rename_i d m heq
        rw [Option.some.injEq] at h
        obtain ⟨hd, hm, q, hl⟩ := matchMarketThenCode_shape heq
        exact ⟨⟨d, m, h.symm, hd, hm⟩,
          ⟨m.toList ++ d, q, by rw [hl, List.append_assoc],
            Or.inr (Or.inl ⟨d, m, hd, hm, rfl⟩)⟩⟩
      · split at h
        · rename_i d rest heq
          split at h
          · rename_i m heq2
            rw [Option.some.injEq] at h
            obtain ⟨hl, hlen, hall⟩ := takeDigits6_eq_some.mp heq
            exact ⟨⟨d, m, h.symm, ⟨hlen, hall⟩, inferMarket_marketStr heq2⟩,
              ⟨d, rest, hl,
                Or.inr (Or.inr ⟨d, ⟨hlen, hall⟩, rfl, by rw [heq2]; rfl⟩)⟩⟩
          · exact absurd h (by simp)
        · exact absurd h (by simp)

/-- Canonical strings re-standardize to themselves: `digits.MARKET` is
whitespace-free, already uppercase, and matched whole by the suffix-form
regex. -/
theorem standardize_canonical {d : List Char} {m : String}
    (hd : AStockCode.digits6 d) (hm : AStockCode.marketStr m) :
    AStockCode.standardize (AStockCode.canonical d m) =
      some (AStockCode.canonical d m) := by
  have hchars : ∀ c ∈ d ++ '.' :: m.toList,
      AStockCode.isPyWhitespace c = false ∧ AStockCode.pyToUpper c = c := by
    intro c hc
    rcases List.mem_append.mp hc with hcd | hcm
    · have hdig : AStockCode.isDig c = true := List.all_eq_true.mp hd.2 c hcd
      exact ⟨isDig_not_ws hdig, isDig_toUpper hdig⟩
    · rcases List.mem_cons.mp hcm with rfl | hcm2
      · exact ⟨by decide, by decide⟩
      · exact market_chars hm c hcm2
  have hclean : AStockCode.pyUpper
      (AStockCode.pyStrip (AStockCode.canonical d m).toList) =
      d ++ '.' :: m.toList := by
    rw [canonical_data,
      pyStrip_eq_self (fun c hc => (hchars c hc).1),
      pyUpper_eq_self (fun c hc => (hchars c hc).2)]
  have h1 : AStockCode.matchCodeThenMarket (d ++ '.' :: m.toList) = some (d, m) := by
    have := matchCodeThenMarket_of_dot (q := []) hd hm
    simpa using this
  simp only [AStockCode.standardize, if_neg canonical_ne_empty, hclean, h1]

/-- C7: `standardize` is idempotent — whenever it succeeds, its result is a
canonical `digits.MARKET` string, and re-standardizing such a string
returns it unchanged. -/
theorem c7_idempotent : ∀ (x s : String),
    AStockCode.standardize x = some s → AStockCode.standardize s = some s := by
  intro x s h
  obtain ⟨-, ⟨d, m, rfl, hd, hm⟩, -⟩ := standardize_eq_some h
  exact standardize_canonical hd hm

theorem c7_witness : AStockCode.standardize "000001.SZ" = some "000001.SZ" :=
  c7_idempotent "sz000001" "000001.SZ" (by decide)

/-- C4 counterexample: the claim says an input whose numeric portion is not
exactly 6 digits, such as `"6000001"`, is rejected; the code's regexes are
anchored at the start only, so the first six digits are taken and the
trailing `1` is ignored: `standardize "6000001" = some "600000.SH"`. -/
theorem c4_counterexample :
    AStockCode.standardize "6000001" = some "600000.SH" := by decide

/-- C4 (amended): `standardize` succeeds exactly when some head (prefix
portion) of the cleaned input matches one of the three accepted shapes;
characters trailing an accepted head — including extra digits, as in
`"6000001"` — are ignored rather than causing rejection, and inputs with no
accepted-shape head yield the absence value. -/
theorem c4_amended : ∀ x : String,
    (AStockCode.standardize x).isSome = true ↔
    (x ≠ "" ∧ ∃ p q,
      AStockCode.pyUpper (AStockCode.pyStrip x.toList) = p ++ q ∧
      AStockCode.acceptedShape p) := by
  intro x
  constructor
  · intro h
    rw [Option.isSome_iff_exists] at h
    obtain ⟨s, hs⟩ := h
    obtain ⟨hx, -, hsplit⟩ := standardize_eq_some hs
    exact ⟨hx, hsplit⟩
  · rintro ⟨hx, p, q, hpq, hshape⟩
    simp only [AStockCode.standardize]
    rw [if_neg hx, hpq]
    rcases hshape with ⟨d, m, hd, hm, hp | hp⟩ | ⟨d, m, hd, hm, hp⟩ | ⟨d, hd, hp, hinf⟩
    · subst hp
      rw [List.append_assoc, matchCodeThenMarket_of_nodot hd hm]
      rfl
    · subst hp
      rw [List.append_assoc, List.cons_append, matchCodeThenMarket_of_dot hd hm]
      rfl
    · subst hp
      rw [List.append_assoc]
      cases hcm : AStockCode.matchCodeThenMarket (m.toList ++ (d ++ q)) with
      | some v =>
        obtain ⟨d2, m2⟩ := v
        rfl
      | none =>
        rw [matchMarketThenCode_of hd hm]
        rfl
    · subst hp
      cases hcm : AStockCode.matchCodeThenMarket (p ++ q) with
      | some v =>
        obtain ⟨d2, m2⟩ := v
        rfl
      | none =>
        cases hmc : AStockCode.matchMarketThenCode (p ++ q) with
        | some v =>
          obtain ⟨d2, m2⟩ := v
          rfl
        | none =>
          have ht : AStockCode.takeDigits6 (p ++ q) = some (p, q) :=
            takeDigits6_eq_some.mpr ⟨rfl, hd.1, hd.2⟩
          rw [ht]
          obtain ⟨m, hm2⟩ := Option.isSome_iff_exists.mp hinf
          simp [hm2]
